import Mathlib

/-!
# CNG-RTK-HUB — verification of the spec against the source

Shallow embedding of the data-plane pipeline of the CNG-RTK-HUB repository:
the two receiver-driver frame parsers (`src/drivers/zedf9p.py`,
`src/drivers/um980.py`), the RTCM extractor and CRC-24Q of the NTRIP client
(`src/ntrip/ntrip_client.py`), the mount manager's selection/failover logic
(`src/ntrip/mount_manager.py`), and the aggregator's correction fan-out and
driver connection handling (`src/core/driver_manager.py`).

Conventions of the embedding:
* Python `bytes` values are `List Nat` (each entry is a byte value 0..255;
  where a property needs the byte bound it is an explicit hypothesis).
* Python floats produced by scaling integers (`x * 1e-7`, `x / 1000.0`)
  are modelled as exact rationals `x / 10^7`, `x / 10^3`.
* Fallible parsing (`raise ProtocolError`, `UnicodeDecodeError`) is `Option`.
* Async callbacks are modelled by returning the list of calls that the
  code would make, in order.
* The ISO-8601 timestamp string and the `receiver_meta`/firmware fields of
  `GNSSState` are not modelled: no claim mentions them.
-/

namespace RTKHub

/-- `int.from_bytes(bs, 'little')` (unsigned): little-endian base-256 value. -/
def uLE (bs : List Nat) : Nat :=
  bs.foldr (fun b acc => b + 256 * acc) 0

/-- `int.from_bytes(bs, 'little', signed=True)`: two's-complement value. -/
def iLE (bs : List Nat) : Int :=
  let u := uLE bs
  if u < 2 ^ (8 * bs.length - 1) then (u : Int) else (u : Int) - 2 ^ (8 * bs.length)

/-- Python slice `data[a:b]` (for `a ≤ b`). -/
def pySlice (data : List Nat) (a b : Nat) : List Nat :=
  (data.drop a).take (b - a)

/-- `FixType` from `src/core/interfaces.py`. -/
inductive FixType where
  | NO_FIX
  | DGPS
  | FLOAT
  | FIX
deriving DecidableEq, Repr

/-- `GNSSState` from `src/core/interfaces.py` (timestamp string and
receiver-metadata dict are not modelled; `model` carries the
`receiver_meta["model"]` entry). -/
structure GNSSState where
  fix_type : FixType
  latitude : ℚ
  longitude : ℚ
  altitude_m : ℚ
  accuracy_m : ℚ
  sats : List (String × Nat)
  pdop : ℚ
  baseline_m : ℚ
  correction_source : String
  model : String
deriving DecidableEq, Repr

/-- `parse_ubx_nav_pvt` from `src/drivers/zedf9p.py` (lines 129-176).
`none` models the `ProtocolError` raised for messages shorter than 100
bytes.  Scaling by `1e-7`/`1e-3`/`0.01` is exact rational division. -/
def parse_ubx_nav_pvt (data : List Nat) : Option GNSSState :=
  if data.length < 100 then none
  else
    let fix_type := data.getD 26 0
    let carr_soln := data.getD 27 0
    let lat : ℚ := (iLE (pySlice data 32 36) : ℚ) / 10 ^ 7
    let lon : ℚ := (iLE (pySlice data 36 40) : ℚ) / 10 ^ 7
    let height : ℚ := (iLE (pySlice data 40 44) : ℚ) / 10 ^ 3
    let h_acc : ℚ := (uLE (pySlice data 48 52) : ℚ) / 10 ^ 3
    let num_sv := data.getD 29 0
    let p_dop : ℚ := (uLE (pySlice data 82 84) : ℚ) / 10 ^ 2
    let fix_type_enum :=
      if carr_soln = 2 then FixType.FIX
      else if carr_soln = 1 then FixType.FLOAT
      else if fix_type = 2 ∨ fix_type = 3 ∨ fix_type = 4 then FixType.DGPS
      else FixType.NO_FIX
    some
      { fix_type := fix_type_enum
        latitude := lat
        longitude := lon
        altitude_m := height
        accuracy_m := h_acc
        sats := [("GPS", num_sv)]
        pdop := p_dop
        baseline_m := 0
        correction_source := "None"
        model := "ZED-F9P" }

/-- Byte values of a Lean string literal (used for the ASCII status keys). -/
def strBytes (s : String) : List Nat :=
  s.toList.map Char.toNat

/-- `.strip('\x00')`: remove NUL bytes from both ends. -/
def stripNul (l : List Nat) : List Nat :=
  ((l.dropWhile (· == 0)).reverse.dropWhile (· == 0)).reverse

/-- The `status_map` table from `parse_unicore_bestpos`
(`src/drivers/um980.py`, lines 155-175): 19 solution-status strings. -/
def status_map : List (List Nat × FixType) :=
  [ (strBytes "SOL_COMPUTED", FixType.FIX)
  , (strBytes "INSUFFICIENT_OBS", FixType.NO_FIX)
  , (strBytes "NO_CONVERGENCE", FixType.NO_FIX)
  , (strBytes "SINGULARITY", FixType.NO_FIX)
  , (strBytes "COV_TRACE", FixType.DGPS)
  , (strBytes "TEST_DIST", FixType.DGPS)
  , (strBytes "COLD_START", FixType.NO_FIX)
  , (strBytes "V_H_LIMIT", FixType.DGPS)
  , (strBytes "VARIANCE", FixType.DGPS)
  , (strBytes "RESIDUALS", FixType.DGPS)
  , (strBytes "DELTA_POS", FixType.DGPS)
  , (strBytes "NEGATIVE_VAR", FixType.DGPS)
  , (strBytes "INTEGRITY_WARNING", FixType.FLOAT)
  , (strBytes "INS_INACTIVE", FixType.DGPS)
  , (strBytes "INS_ALIGNING", FixType.DGPS)
  , (strBytes "INS_BAD", FixType.DGPS)
  , (strBytes "IMU_UNPLUGGED", FixType.DGPS)
  , (strBytes "PENDING", FixType.NO_FIX)
  , (strBytes "INVALID_FIX", FixType.NO_FIX) ]

/-- `parse_unicore_bestpos` from `src/drivers/um980.py` (lines 133-189).
`none` models the `ProtocolError` for short messages and the
`UnicodeDecodeError` that `data[4:20].decode('ascii')` raises when a
status byte is ≥ 0x80 (the caller catches it and drops the message). -/
def parse_unicore_bestpos (data : List Nat) : Option GNSSState :=
  if data.length < 72 then none
  else if (pySlice data 4 20).all (· < 128) then
      let sol_status := stripNul (pySlice data 4 20)
      let lat : ℚ := (iLE (pySlice data 20 28) : ℚ) / 10 ^ 7
      let lon : ℚ := (iLE (pySlice data 28 36) : ℚ) / 10 ^ 7
      let height : ℚ := (iLE (pySlice data 36 44) : ℚ) / 10 ^ 3
      let lat_stdev : ℚ := (uLE (pySlice data 44 48) : ℚ) / 10 ^ 3
      let lon_stdev : ℚ := (uLE (pySlice data 48 52) : ℚ) / 10 ^ 3
      let num_svs := data.getD 64 0
      some
        { fix_type := ((status_map.lookup sol_status).getD FixType.NO_FIX)
          latitude := lat
          longitude := lon
          altitude_m := height
          accuracy_m := max lat_stdev lon_stdev
          sats := [("GPS", num_svs)]
          pdop := 0
          baseline_m := 0
          correction_source := "None"
          model := "UM980" }
    else none
/-! ## NTRIP client: CRC-24Q and the RTCM frame extractor
(`src/ntrip/ntrip_client.py`) -/

/-- One shift-and-conditional-XOR round of `_calculate_crc24q`
(`src/ntrip/ntrip_client.py`, lines 214-219), including the final
24-bit mask applied inside the loop. -/
def crcRound (crc : Nat) : Nat :=
  (if crc &&& 0x800000 ≠ 0 then (crc <<< 1) ^^^ 0x1864CFB else crc <<< 1) &&& 0xFFFFFF

/-- Per-byte step of `_calculate_crc24q`: XOR the byte into the top byte of
the accumulator, then eight rounds. -/
def crcByteStep (crc byte : Nat) : Nat :=
  crcRound^[8] (crc ^^^ (byte <<< 16))

/-- `NTRIPClient._calculate_crc24q` (`src/ntrip/ntrip_client.py`,
lines 207-221): CRC-24Q, polynomial `0x1864CFB`, initial value 0. -/
def crc24q (data : List Nat) : Nat :=
  data.foldl crcByteStep 0

/-- `NTRIPClient._validate_rtcm_crc` (`src/ntrip/ntrip_client.py`,
lines 193-205): the trailing three bytes, big-endian, must equal the
CRC-24Q of the rest of the message. -/
def validateRtcmCrc (message : List Nat) : Bool :=
  if message.length < 6 then false
  else
    let received :=
      ((message.getD (message.length - 3) 0) <<< 16) |||
      ((message.getD (message.length - 2) 0) <<< 8) |||
      (message.getD (message.length - 1) 0)
    received == crc24q (message.take (message.length - 3))

/-- Total RTCM frame length read out of a buffer that starts with the
preamble: `message_length = ((buffer[1] & 0x03) << 8) | buffer[2]`,
`total_length = message_length + 6`. -/
def rtcmTotal (buf : List Nat) : Nat :=
  ((((buf.getD 1 0) &&& 0x03) <<< 8) ||| buf.getD 2 0) + 6

/-- The RTCM extraction loop of `NTRIPClient._stream_corrections`
(`src/ntrip/ntrip_client.py`, lines 154-183), run to completion on a
buffer.  Returns the frames passed to the correction callback (in order)
and the remaining buffer.  The loop consumes at least one byte per
iteration, so `fuel := buf.length` bounds the number of iterations; the
fuel argument only makes the recursion structural. -/
def processRtcmFuel : Nat → List Nat → List (List Nat) × List Nat
  | 0, buf => ([], buf)
  | fuel + 1, buf =>
    if buf.length < 3 then ([], buf)
    else
      match buf with
      | [] => ([], [])
      | b :: rest =>
        if b ≠ 0xD3 then processRtcmFuel fuel rest
        else
          let total := rtcmTotal (b :: rest)
          if (b :: rest).length < total then ([], b :: rest)
          else
            let r := processRtcmFuel fuel ((b :: rest).drop total)
            if validateRtcmCrc ((b :: rest).take total) then
              (((b :: rest).take total) :: r.1, r.2)
            else r

/-- The RTCM extraction loop, with the fuel fixed to the buffer length. -/
def processRtcm (buf : List Nat) : List (List Nat) × List Nat :=
  processRtcmFuel buf.length buf

/-- `NTRIPClient._stream_corrections` fed a sequence of chunks: the buffer
persists across chunks, each arriving chunk is appended and the extraction
loop runs to completion.  Returns all frames emitted and the final buffer. -/
def rtcmStep (acc : List (List Nat) × List Nat) (chunk : List Nat) :
    List (List Nat) × List Nat :=
  let r := processRtcm (acc.2 ++ chunk)
  (acc.1 ++ r.1, r.2)

def feedRtcm (chunks : List (List Nat)) : List (List Nat) × List Nat :=
  chunks.foldl rtcmStep ([], [])

/-! ## Variant A (UBX) frame extractor (`src/drivers/zedf9p.py`) -/

/-- `buffer.find(b'\xb5\x62')`: index of the first two-byte UBX sync
sequence, `none` when absent. -/
def findUbxSync : List Nat → Option Nat
  | a :: b :: rest =>
    if a = 0xB5 ∧ b = 0x62 then some 0
    else (findUbxSync (b :: rest)).map (· + 1)
  | _ => none

/-- The UBX extraction loop of `ZedF9PDriver._data_processing_loop`
(`src/drivers/zedf9p.py`, lines 51-78), run to completion on a buffer.
Returns the messages passed to `_process_ubx_message` and the remaining
buffer.  Note: when no sync sequence is found the source executes
`buffer.clear()`, discarding the whole buffer.  Fuel as in
`processRtcmFuel`. -/
def processUbxFuel : Nat → List Nat → List (List Nat) × List Nat
  | 0, buf => ([], buf)
  | fuel + 1, buf =>
    if buf.length < 8 then ([], buf)
    else
      match findUbxSync buf with
      | none => ([], [])
      | some pos =>
        let buf1 := buf.drop pos
        if buf1.length < 6 then ([], buf1)
        else
          let total := 6 + (buf1.getD 4 0 + 256 * buf1.getD 5 0) + 2
          if buf1.length < total then ([], buf1)
          else
            let r := processUbxFuel fuel (buf1.drop total)
            ((buf1.take total) :: r.1, r.2)

/-- The UBX extraction loop, with the fuel fixed to the buffer length. -/
def processUbx (buf : List Nat) : List (List Nat) × List Nat :=
  processUbxFuel buf.length buf

def ubxStep (acc : List (List Nat) × List Nat) (chunk : List Nat) :
    List (List Nat) × List Nat :=
  let r := processUbx (acc.2 ++ chunk)
  (acc.1 ++ r.1, r.2)

/-- `ZedF9PDriver._data_processing_loop` fed a sequence of chunks. -/
def feedUbx (chunks : List (List Nat)) : List (List Nat) × List Nat :=
  chunks.foldl ubxStep ([], [])
/-! ## Mount manager (`src/ntrip/mount_manager.py`) -/

/-- The slice of `MountStatus` (`src/ntrip/mount_manager.py`, lines 17-28)
that the selection/cooldown logic reads and writes: the descriptor's
`enabled` flag, the consecutive-failure count, the priority, and the
last-attempt timestamp (wall-clock modelled as `ℚ`). -/
structure MountStatus where
  enabled : Bool
  consecutive_failures : Nat
  priority : Int
  last_attempt : Option ℚ
deriving DecidableEq, Repr

/-- Default used only to totalize list indexing. -/
def mdefault : MountStatus := ⟨false, 0, 0, none⟩

/-- The mount at index `i` of the manager's list. -/
def mountAt (ms : List MountStatus) (i : Nat) : MountStatus :=
  ms.getD i mdefault

/-- The availability filter of `_connect_best_mount`
(`src/ntrip/mount_manager.py`, lines 165-168): enabled and below the
consecutive-failure cap. -/
def isAvailable (maxFail : Nat) (m : MountStatus) : Bool :=
  m.enabled && decide (m.consecutive_failures < maxFail)

/-- The filtered list of `_connect_best_mount`, with each mount paired
with its index in the manager's list. -/
def availableMounts (maxFail : Nat) (ms : List MountStatus) : List (Nat × MountStatus) :=
  ms.enum.filter (fun p => isAvailable maxFail p.2)

/-- The Boolean form of Python's sort key comparison
`(m.consecutive_failures, m.priority)` (lexicographic ≤). -/
def keyLe (a b : MountStatus) : Bool :=
  decide (a.consecutive_failures < b.consecutive_failures) ||
    (decide (a.consecutive_failures = b.consecutive_failures) &&
      decide (a.priority ≤ b.priority))

/-- Strict lexicographic order on the sort key. -/
def keyLtP (a b : MountStatus) : Prop :=
  a.consecutive_failures < b.consecutive_failures ∨
    (a.consecutive_failures = b.consecutive_failures ∧ a.priority < b.priority)

/-- The sort key `(consecutive_failures, priority)` of
`available_mounts.sort` (`src/ntrip/mount_manager.py`, line 175). -/
def failKey (m : MountStatus) : Nat × Int :=
  (m.consecutive_failures, m.priority)

/-- Stable insertion of one element into a key-sorted list (a tie keeps
the inserted element first, as Python's stable `list.sort` does). -/
def insertMount (p : Nat × MountStatus) :
    List (Nat × MountStatus) → List (Nat × MountStatus)
  | [] => [p]
  | q :: l => if keyLe p.2 q.2 then p :: q :: l else q :: insertMount p l

/-- Stable sort by `(consecutive_failures, priority)`, modelling
`available_mounts.sort(key=lambda m: (m.consecutive_failures, m.priority))`. -/
def sortMounts : List (Nat × MountStatus) → List (Nat × MountStatus)
  | [] => []
  | p :: l => insertMount p (sortMounts l)

/-- Apply `f` to the element at index `i` (identity out of range). -/
def modifyIdx (f : MountStatus → MountStatus) : Nat → List MountStatus → List MountStatus
  | _, [] => []
  | 0, m :: ms => f m :: ms
  | n + 1, m :: ms => m :: modifyIdx f n ms

/-- `_attempt_connection` on success (`src/ntrip/mount_manager.py`,
lines 194-204): record the attempt time, reset the failure count. -/
def attemptSuccess (now : ℚ) (m : MountStatus) : MountStatus :=
  { m with last_attempt := some now, consecutive_failures := 0 }

/-- `_attempt_connection` on failure (lines 194, 205-209): record the
attempt time, increment the failure count. -/
def attemptFailure (now : ℚ) (m : MountStatus) : MountStatus :=
  { m with last_attempt := some now, consecutive_failures := m.consecutive_failures + 1 }

/-- Result of one `_connect_best_mount` round: the returned Boolean, the
indices attempted in order, the final mount states, and the index made
active (if any). -/
structure RoundResult where
  success : Bool
  attempted : List Nat
  mounts : List MountStatus
  active : Option Nat
deriving DecidableEq, Repr

/-- The `for mount_status in available_mounts` loop of
`_connect_best_mount` (lines 177-182): try each pre-sorted candidate via
`_attempt_connection` (whose outcome for index `i` is `ok i`), stopping at
the first success. -/
def connectRound (now : ℚ) (ok : Nat → Bool) :
    List (Nat × MountStatus) → List MountStatus → RoundResult
  | [], ms => ⟨false, [], ms, none⟩
  | (i, _) :: rest, ms =>
    if ok i then ⟨true, [i], modifyIdx (attemptSuccess now) i ms, some i⟩
    else
      let r := connectRound now ok rest (modifyIdx (attemptFailure now) i ms)
      ⟨r.success, i :: r.attempted, r.mounts, r.active⟩

/-- `NTRIPMountManager._connect_best_mount` (`src/ntrip/mount_manager.py`,
lines 162-182): filter the enabled, below-cap mounts, stable-sort them by
`(consecutive_failures, priority)`, and attempt them in order. -/
def connectBestMount (maxFail : Nat) (now : ℚ) (ok : Nat → Bool)
    (ms : List MountStatus) : RoundResult :=
  connectRound now ok (sortMounts (availableMounts maxFail ms)) ms

/-- `NTRIPMountManager._retry_failed_mounts` (`src/ntrip/mount_manager.py`,
lines 278-288): one health-check pass at wall-clock `now` resets the
failure count of every mount that reached the cap, has a recorded
last-attempt, and whose cooldown has elapsed. -/
def retryFailedMounts (maxFail : Nat) (retryDelay now : ℚ)
    (ms : List MountStatus) : List MountStatus :=
  ms.map fun m =>
    if maxFail ≤ m.consecutive_failures then
      match m.last_attempt with
      | some t => if retryDelay < now - t then { m with consecutive_failures := 0 } else m
      | none => m
    else m

/-- The attempted prefix: every index before the first connecting one,
plus that one. -/
def untilSuccessIdx (ok : Nat → Bool) : List Nat → List Nat
  | [] => []
  | i :: rest => if ok i then [i] else i :: untilSuccessIdx ok rest

/-- The order in which a round attempts descriptors: ascending
`(consecutive_failures, priority)` key, ties broken by list position. -/
def attemptOrder (ms : List MountStatus) (i j : Nat) : Prop :=
  keyLtP (mountAt ms i) (mountAt ms j) ∨
    (failKey (mountAt ms i) = failKey (mountAt ms j) ∧ i < j)

/-! ## Aggregator (`src/core/driver_manager.py`) -/

/-- `DriverStatus` from `src/core/driver_manager.py` (lines 21-26). -/
inductive DriverStatus where
  | DISCONNECTED
  | CONNECTING
  | CONNECTED
  | STREAMING
  | ERROR
deriving DecidableEq, Repr

/-- The `correction_stats` dict of `DriverManager` (lines 49-53). -/
structure CorrectionStats where
  total_corrections : Nat
  total_bytes : Nat
  last_correction_time : Option ℚ
deriving DecidableEq, Repr

/-- The status test of `DriverManager._ntrip_correction_received`
(line 309): `self.driver_status.get(driver_id) in [CONNECTED, STREAMING]`. -/
def injectEligible (status : String → Option DriverStatus) (d : String) : Prop :=
  status d = some DriverStatus.CONNECTED ∨ status d = some DriverStatus.STREAMING

instance (status : String → Option DriverStatus) (d : String) :
    Decidable (injectEligible status d) := by
  unfold injectEligible; infer_instance

/-- The inject loop of `DriverManager._ntrip_correction_received`
(lines 306-317): for each registered driver id, in registration order,
call `inject_corrections(rtcm_data)` iff its status is CONNECTED or
STREAMING.  Returns the list of calls `(driver_id, bytes)` made, in
order. -/
def injectCalls (status : String → Option DriverStatus) (ids : List String)
    (rtcm : List Nat) : List (String × List Nat) :=
  match ids with
  | [] => []
  | d :: rest =>
    if injectEligible status d then
      (d, rtcm) :: injectCalls status rest rtcm
    else injectCalls status rest rtcm

/-- `DriverManager._ntrip_correction_received` (`src/core/driver_manager.py`,
lines 297-322): update the correction statistics, then inject the frame to
every CONNECTED/STREAMING driver. -/
def ntripCorrectionReceived (now : ℚ) (stats : CorrectionStats)
    (status : String → Option DriverStatus) (ids : List String) (rtcm : List Nat) :
    CorrectionStats × List (String × List Nat) :=
  (⟨stats.total_corrections + 1, stats.total_bytes + rtcm.length, some now⟩,
   injectCalls status ids rtcm)

/-- `ZedF9PDriver.connect` (`src/drivers/zedf9p.py`, lines 19-27): returns
`true` when the serial port opens; any open failure is re-raised as
`ConnectionError` (the `Except.error` case). -/
def zedConnect (portOpens : Bool) : Except Unit Bool :=
  if portOpens then Except.ok true else Except.error ()

/-- `DriverManager.connect_driver` (`src/core/driver_manager.py`,
lines 102-126) for a registered driver: catches the driver's
`ConnectionError`, returning the call result together with the driver's
new registration status.  The plain (non-`Except`) return type records
that no exception escapes `connect_driver`. -/
def connectDriver (portOpens : Bool) : Bool × DriverStatus :=
  match zedConnect portOpens with
  | Except.ok true => (true, DriverStatus.CONNECTED)
  | Except.ok false => (false, DriverStatus.ERROR)
  | Except.error _ => (false, DriverStatus.ERROR)

/-! ## Concrete inputs used by counterexamples and witnesses -/

/-- A CRC-valid zero-payload RTCM frame: `crc24q [0xD3, 0, 0] = 0x47EA4B`. -/
def rtcmFrame6 : List Nat := [0xD3, 0x00, 0x00, 0x47, 0xEA, 0x4B]

/-- A complete 13-byte RTCM candidate (declared payload length 7) whose
CRC check fails, and whose payload contains the valid frame `rtcmFrame6`
starting at offset 3. -/
def rtcmBadCandidate : List Nat :=
  [0xD3, 0x00, 0x07] ++ rtcmFrame6 ++ [0x00] ++ [0x00, 0x00, 0x00]

/-- First chunk for the UBX split counterexample: seven junk bytes and the
first sync byte `0xB5`. -/
def ubxChunk1 : List Nat := [0, 0, 0, 0, 0, 0, 0, 0xB5]

/-- Second chunk: the rest of a complete 8-byte UBX frame (class 0x01,
id 0x07, zero-length payload, valid Fletcher checksum `0x08 0x19`). -/
def ubxChunk2 : List Nat := [0x62, 0x01, 0x07, 0x00, 0x00, 0x08, 0x19]

/-- A 100-byte NAV-PVT message whose latitude field (bytes 32..36) holds
the int32 `0x7FFFFFFF`, decoding to `214.7483647` degrees. -/
def ubxLatOverflowFrame : List Nat :=
  List.replicate 32 0 ++ [0xFF, 0xFF, 0xFF, 0x7F] ++ List.replicate 64 0
/-! ## Helper lemmas: parsers -/

/-- Unfolding of `parse_ubx_nav_pvt` on a long-enough message. -/
theorem parse_ubx_fields (data : List Nat) (h : 100 ≤ data.length) :
    parse_ubx_nav_pvt data = some
      { fix_type :=
          if data.getD 27 0 = 2 then FixType.FIX
          else if data.getD 27 0 = 1 then FixType.FLOAT
          else if data.getD 26 0 = 2 ∨ data.getD 26 0 = 3 ∨ data.getD 26 0 = 4 then
            FixType.DGPS
          else FixType.NO_FIX
        latitude := (iLE (pySlice data 32 36) : ℚ) / 10 ^ 7
        longitude := (iLE (pySlice data 36 40) : ℚ) / 10 ^ 7
        altitude_m := (iLE (pySlice data 40 44) : ℚ) / 10 ^ 3
        accuracy_m := (uLE (pySlice data 48 52) : ℚ) / 10 ^ 3
        sats := [("GPS", data.getD 29 0)]
        pdop := (uLE (pySlice data 82 84) : ℚ) / 10 ^ 2
        baseline_m := 0
        correction_source := "None"
        model := "ZED-F9P" } := by
  unfold parse_ubx_nav_pvt
  rw [if_neg (Nat.not_lt.mpr h)]

/-- Unfolding of `parse_unicore_bestpos` on a long-enough message with an
ASCII status field. -/
theorem parse_unicore_fields (data : List Nat) (h : 72 ≤ data.length)
    (ha : (pySlice data 4 20).all (· < 128) = true) :
    parse_unicore_bestpos data = some
      { fix_type := (status_map.lookup (stripNul (pySlice data 4 20))).getD FixType.NO_FIX
        latitude := (iLE (pySlice data 20 28) : ℚ) / 10 ^ 7
        longitude := (iLE (pySlice data 28 36) : ℚ) / 10 ^ 7
        altitude_m := (iLE (pySlice data 36 44) : ℚ) / 10 ^ 3
        accuracy_m := max ((uLE (pySlice data 44 48) : ℚ) / 10 ^ 3)
          ((uLE (pySlice data 48 52) : ℚ) / 10 ^ 3)
        sats := [("GPS", data.getD 64 0)]
        pdop := 0
        baseline_m := 0
        correction_source := "None"
        model := "UM980" } := by
  unfold parse_unicore_bestpos
  rw [if_neg (Nat.not_lt.mpr h), if_pos ha]

/-- A `lookup` on an association list misses every key absent from the
key column. -/
theorem lookup_eq_none_of_not_mem_keys {β : Type} (l : List (List Nat × β))
    (k : List Nat) (hk : k ∉ l.map Prod.fst) : l.lookup k = none := by
  induction l with
  | nil => rfl
  | cons p rest ih =>
    simp only [List.map_cons, List.mem_cons, not_or] at hk
    obtain ⟨hk1, hk2⟩ := hk
    have : (k == p.1) = false := by
      simp only [beq_eq_false_iff_ne, ne_eq]
      exact hk1
    simp [List.lookup, this, ih hk2]

/-- Little-endian value of a byte list is below `256 ^ length`. -/
theorem uLE_lt (bs : List Nat) (hb : ∀ b ∈ bs, b < 256) :
    uLE bs < 256 ^ bs.length := by
  induction bs with
  | nil => simp [uLE]
  | cons b rest ih =>
    have hb0 : b < 256 := hb b (by simp)
    have hrest : uLE rest < 256 ^ rest.length :=
      ih (fun x hx => hb x (by simp [hx]))
    have hstep : uLE (b :: rest) = b + 256 * uLE rest := rfl
    rw [hstep, List.length_cons, pow_succ]
    calc b + 256 * uLE rest < 256 + 256 * uLE rest := by omega
      _ = 256 * (uLE rest + 1) := by ring
      _ ≤ 256 * 256 ^ rest.length := by
          exact Nat.mul_le_mul_left 256 hrest
      _ = 256 ^ rest.length * 256 := by ring

/-- Two's-complement decoding of genuine bytes lies in the signed range. -/
theorem iLE_bounds (bs : List Nat) (hb : ∀ b ∈ bs, b < 256) :
    -(2 ^ (8 * bs.length - 1) : Int) ≤ iLE bs ∧
      iLE bs < 2 ^ (8 * bs.length - 1) := by
  have hu : uLE bs < 256 ^ bs.length := uLE_lt bs hb
  have h256 : (256 : Nat) ^ bs.length = 2 ^ (8 * bs.length) := by
    rw [show (256 : Nat) = 2 ^ 8 by norm_num, ← pow_mul]
  unfold iLE
  by_cases hlt : uLE bs < 2 ^ (8 * bs.length - 1)
  · rw [if_pos hlt]
    have hZ : (uLE bs : Int) < 2 ^ (8 * bs.length - 1) := by exact_mod_cast hlt
    have h0 : (0 : Int) ≤ (uLE bs : Int) := Int.ofNat_nonneg _
    have hE : (0 : Int) ≤ 2 ^ (8 * bs.length - 1) := by positivity
    exact ⟨by linarith, hZ⟩
  · rw [if_neg hlt]
    push_neg at hlt
    have h1 : (uLE bs : Int) < 2 ^ (8 * bs.length) := by
      have := hu
      rw [h256] at this
      exact_mod_cast this
    have h2 : (2 ^ (8 * bs.length - 1) : Int) ≤ (uLE bs : Int) := by
      exact_mod_cast hlt
    cases bs with
    | nil => simp [uLE] at h2
    | cons b rest =>
      have hsplit : (2 : Int) ^ (8 * (b :: rest).length) =
          2 ^ (8 * (b :: rest).length - 1) * 2 := by
        rw [← pow_succ]
        congr 1
      have hE : (0 : Int) ≤ 2 ^ (8 * (b :: rest).length - 1) := by positivity
      constructor
      · rw [hsplit] at h1 ⊢
        linarith
      · rw [hsplit] at h1
        linarith
/-! ## Helper lemmas: aggregator fan-out -/

theorem mem_injectCalls (status : String → Option DriverStatus) (ids : List String)
    (rtcm : List Nat) (d : String) (bs : List Nat) :
    (d, bs) ∈ injectCalls status ids rtcm ↔
      d ∈ ids ∧ bs = rtcm ∧ injectEligible status d := by
  induction ids with
  | nil => simp [injectCalls]
  | cons e rest ih =>
    by_cases he : injectEligible status e
    · simp only [injectCalls, if_pos he, List.mem_cons, Prod.mk.injEq, ih]
      constructor
      · rintro (⟨rfl, rfl⟩ | ⟨h1, h2, h3⟩)
        · exact ⟨Or.inl rfl, rfl, he⟩
        · exact ⟨Or.inr h1, h2, h3⟩
      · rintro ⟨rfl | h1, rfl, h3⟩
        · exact Or.inl ⟨rfl, rfl⟩
        · exact Or.inr ⟨h1, rfl, h3⟩
    · simp only [injectCalls, if_neg he, ih, List.mem_cons]
      constructor
      · rintro ⟨h1, h2, h3⟩
        exact ⟨Or.inr h1, h2, h3⟩
      · rintro ⟨rfl | h1, h2, h3⟩
        · exact absurd h3 he
        · exact ⟨h1, h2, h3⟩

theorem count_injectCalls_eq_one (status : String → Option DriverStatus)
    (ids : List String) (rtcm : List Nat) (d : String)
    (hnd : ids.Nodup) (hd : d ∈ ids) (he : injectEligible status d) :
    (injectCalls status ids rtcm).count (d, rtcm) = 1 := by
  induction ids with
  | nil => cases hd
  | cons e rest ih =>
    obtain ⟨hne, hndr⟩ := List.nodup_cons.mp hnd
    rcases List.mem_cons.mp hd with rfl | hdr
    · have hnot : (d, rtcm) ∉ injectCalls status rest rtcm := by
        rw [mem_injectCalls]
        rintro ⟨h1, -, -⟩
        exact hne h1
      simp [injectCalls, if_pos he, List.count_cons_self,
        List.count_eq_zero.mpr hnot]
    · have hne2 : ¬ ((d, rtcm) = (e, rtcm)) := by
        simp only [Prod.mk.injEq, not_and]
        intro hde
        exact absurd (hde ▸ hdr) hne
      by_cases he2 : injectEligible status e
      · rw [injectCalls, if_pos he2, List.count_cons_of_ne hne2, ih hndr hdr]
      · rw [injectCalls, if_neg he2, ih hndr hdr]

/-! ## Claim theorems: parsers and aggregator -/

/-- C1: for every RTCM frame delivered through the aggregator's correction
callback, `inject` is called exactly once, with exactly the frame bytes, on
every registered receiver whose status is CONNECTED or STREAMING (and on no
other receiver), and the correction statistics advance by one frame and by
the frame's byte length. -/
theorem correction_fanout (now : ℚ) (stats : CorrectionStats)
    (status : String → Option DriverStatus) (ids : List String) (rtcm : List Nat)
    (hnd : ids.Nodup) :
    (ntripCorrectionReceived now stats status ids rtcm).1.total_corrections
        = stats.total_corrections + 1
    ∧ (ntripCorrectionReceived now stats status ids rtcm).1.total_bytes
        = stats.total_bytes + rtcm.length
    ∧ (∀ d ∈ ids, injectEligible status d →
        (ntripCorrectionReceived now stats status ids rtcm).2.count (d, rtcm) = 1)
    ∧ (∀ d ∈ ids, ¬ injectEligible status d →
        ∀ bs, (d, bs) ∉ (ntripCorrectionReceived now stats status ids rtcm).2)
    ∧ (∀ d bs, (d, bs) ∈ (ntripCorrectionReceived now stats status ids rtcm).2 →
        d ∈ ids ∧ bs = rtcm ∧ injectEligible status d) := by
  refine ⟨rfl, rfl, ?_, ?_, ?_⟩
  · intro d hd he
    exact count_injectCalls_eq_one status ids rtcm d hnd hd he
  · intro d _ he bs hmem
    exact he ((mem_injectCalls status ids rtcm d bs).mp hmem).2.2
  · intro d bs hmem
    exact (mem_injectCalls status ids rtcm d bs).mp hmem

/-- Witness for C1: two receivers, both STREAMING, one 22-byte frame. -/
theorem correction_fanout_witness :
    (ntripCorrectionReceived 0 ⟨0, 0, none⟩
        (fun _ => some DriverStatus.STREAMING) ["zed", "um"]
        (List.replicate 22 0xAB)).1.total_corrections = 0 + 1
    ∧ (ntripCorrectionReceived 0 ⟨0, 0, none⟩
        (fun _ => some DriverStatus.STREAMING) ["zed", "um"]
        (List.replicate 22 0xAB)).1.total_bytes = 0 + (List.replicate 22 0xAB).length
    ∧ (∀ d ∈ ["zed", "um"], injectEligible (fun _ => some DriverStatus.STREAMING) d →
        (ntripCorrectionReceived 0 ⟨0, 0, none⟩
          (fun _ => some DriverStatus.STREAMING) ["zed", "um"]
          (List.replicate 22 0xAB)).2.count (d, List.replicate 22 0xAB) = 1)
    ∧ (∀ d ∈ ["zed", "um"], ¬ injectEligible (fun _ => some DriverStatus.STREAMING) d →
        ∀ bs, (d, bs) ∉ (ntripCorrectionReceived 0 ⟨0, 0, none⟩
          (fun _ => some DriverStatus.STREAMING) ["zed", "um"]
          (List.replicate 22 0xAB)).2)
    ∧ (∀ d bs, (d, bs) ∈ (ntripCorrectionReceived 0 ⟨0, 0, none⟩
          (fun _ => some DriverStatus.STREAMING) ["zed", "um"]
          (List.replicate 22 0xAB)).2 →
        d ∈ ["zed", "um"] ∧ bs = List.replicate 22 0xAB ∧
          injectEligible (fun _ => some DriverStatus.STREAMING) d) :=
  correction_fanout 0 ⟨0, 0, none⟩ (fun _ => some DriverStatus.STREAMING)
    ["zed", "um"] (List.replicate 22 0xAB) (by decide)

/-- C8: a failed driver connect (serial port cannot be opened) is reported
to the caller of `connect_driver` as the Boolean result `false` together
with the registration moving to ERROR; the driver's `ConnectionError` is
caught, so no exception escapes (the return type of `connectDriver` is a
plain pair). -/
theorem failed_connect_reports (portOpens : Bool) (h : portOpens = false) :
    connectDriver portOpens = (false, DriverStatus.ERROR) := by
  subst h
  rfl

/-- Witness for C8. -/
theorem failed_connect_reports_witness :
    connectDriver false = (false, DriverStatus.ERROR) :=
  failed_connect_reports false rfl

/-- C9: the fix quality decoded from a variant-A NAV-PVT message follows
the precedence carrier-solution = 2 → FIX, else carrier-solution = 1 →
FLOAT, else fix-type ∈ {2,3,4} → DGPS, else NO_FIX (byte 27 is the
carrier-solution, byte 26 the fix-type). -/
theorem ubx_fix_quality_precedence (data : List Nat) (h : 100 ≤ data.length) :
    ∃ s, parse_ubx_nav_pvt data = some s ∧
      (s.fix_type = FixType.FIX ↔ data.getD 27 0 = 2) ∧
      (s.fix_type = FixType.FLOAT ↔ (¬ data.getD 27 0 = 2 ∧ data.getD 27 0 = 1)) ∧
      (s.fix_type = FixType.DGPS ↔ (¬ data.getD 27 0 = 2 ∧ ¬ data.getD 27 0 = 1 ∧
        (data.getD 26 0 = 2 ∨ data.getD 26 0 = 3 ∨ data.getD 26 0 = 4))) ∧
      (s.fix_type = FixType.NO_FIX ↔ (¬ data.getD 27 0 = 2 ∧ ¬ data.getD 27 0 = 1 ∧
        ¬ (data.getD 26 0 = 2 ∨ data.getD 26 0 = 3 ∨ data.getD 26 0 = 4))) := by
  obtain ⟨c, hc⟩ : ∃ c, data.getD 27 0 = c := ⟨_, rfl⟩
  obtain ⟨f, hf0⟩ : ∃ f, data.getD 26 0 = f := ⟨_, rfl⟩
  refine ⟨_, parse_ubx_fields data h, ?_, ?_, ?_, ?_⟩ <;>
  · rw [hc, hf0]
    by_cases h2 : c = 2 <;> by_cases h1 : c = 1 <;>
      by_cases hfc : f = 2 ∨ f = 3 ∨ f = 4 <;>
      simp [h2, h1, hfc]

/-- Witness for C9: the all-zero 100-byte message decodes with NO_FIX. -/
theorem ubx_fix_quality_precedence_witness :
    ∃ s, parse_ubx_nav_pvt (List.replicate 100 0) = some s ∧
      (s.fix_type = FixType.FIX ↔ (List.replicate 100 0).getD 27 0 = 2) ∧
      (s.fix_type = FixType.FLOAT ↔ (¬ (List.replicate 100 0).getD 27 0 = 2 ∧
        (List.replicate 100 0).getD 27 0 = 1)) ∧
      (s.fix_type = FixType.DGPS ↔ (¬ (List.replicate 100 0).getD 27 0 = 2 ∧
        ¬ (List.replicate 100 0).getD 27 0 = 1 ∧
        ((List.replicate 100 0).getD 26 0 = 2 ∨ (List.replicate 100 0).getD 26 0 = 3 ∨
          (List.replicate 100 0).getD 26 0 = 4))) ∧
      (s.fix_type = FixType.NO_FIX ↔ (¬ (List.replicate 100 0).getD 27 0 = 2 ∧
        ¬ (List.replicate 100 0).getD 27 0 = 1 ∧
        ¬ ((List.replicate 100 0).getD 26 0 = 2 ∨ (List.replicate 100 0).getD 26 0 = 3 ∨
          (List.replicate 100 0).getD 26 0 = 4))) :=
  ubx_fix_quality_precedence (List.replicate 100 0) (by decide)

/-- C10: a variant-B best-position message whose NUL-trimmed ASCII
solution-status field is none of the 19 table keys decodes with quality
NO_FIX. -/
theorem unicore_unknown_status_no_fix (data : List Nat) (h : 72 ≤ data.length)
    (ha : (pySlice data 4 20).all (· < 128) = true)
    (hk : stripNul (pySlice data 4 20) ∉ status_map.map Prod.fst) :
    ∃ s, parse_unicore_bestpos data = some s ∧ s.fix_type = FixType.NO_FIX := by
  refine ⟨_, parse_unicore_fields data h ha, ?_⟩
  simp [lookup_eq_none_of_not_mem_keys _ _ hk]

/-- Witness for C10: the all-zero 72-byte message has an empty trimmed
status, which is not a table key. -/
theorem unicore_unknown_status_no_fix_witness :
    ∃ s, parse_unicore_bestpos (List.replicate 72 0) = some s ∧
      s.fix_type = FixType.NO_FIX :=
  unicore_unknown_status_no_fix (List.replicate 72 0) (by decide) (by decide) (by decide)

/-- Counterexample to C3 as stated: a 100-byte NAV-PVT message whose
latitude field holds int32 `0x7FFFFFFF` decodes to latitude
`214.7483647 > 90`, so the decoded record violates latitude ∈ [−90, 90]. -/
theorem fix_range_counterexample :
    parse_ubx_nav_pvt ubxLatOverflowFrame ≠ none ∧
      90 < ((parse_ubx_nav_pvt ubxLatOverflowFrame).map GNSSState.latitude).getD 0 := by
  have hfields := parse_ubx_fields ubxLatOverflowFrame (by decide)
  rw [hfields]
  have hlat : iLE (pySlice ubxLatOverflowFrame 32 36) = 2147483647 := by decide
  refine ⟨by simp, ?_⟩
  simp only [Option.map_some', Option.getD_some, hlat]
  norm_num

/-- C3 (amended): the decoded accuracy is always nonnegative (both
variants), but latitude and longitude are only bounded by the decoded
integer field's width: for variant A they lie in
[−2³¹/10⁷, 2³¹/10⁷] ⊇ [−214.75, 214.75], not in [−90, 90] / [−180, 180]. -/
theorem fix_record_bounds (dataA dataB : List Nat)
    (hA : 100 ≤ dataA.length) (hAb : ∀ b ∈ dataA, b < 256)
    (hB : 72 ≤ dataB.length) :
    (∀ s, parse_ubx_nav_pvt dataA = some s →
        0 ≤ s.accuracy_m ∧
        -(2147483648 : ℚ) / 10 ^ 7 ≤ s.latitude ∧
        s.latitude ≤ (2147483648 : ℚ) / 10 ^ 7 ∧
        -(2147483648 : ℚ) / 10 ^ 7 ≤ s.longitude ∧
        s.longitude ≤ (2147483648 : ℚ) / 10 ^ 7)
    ∧ (∀ s, parse_unicore_bestpos dataB = some s → 0 ≤ s.accuracy_m) := by
  constructor
  · intro s hs
    rw [parse_ubx_fields dataA hA] at hs
    have hs' := Option.some.inj hs
    subst hs'
    have hbnd : ∀ (a : Nat), a + 4 ≤ dataA.length →
        -(2147483648 : Int) ≤ iLE (pySlice dataA a (a + 4)) ∧
          iLE (pySlice dataA a (a + 4)) ≤ 2147483648 := by
      intro a hale
      have hsl : (pySlice dataA a (a + 4)).length = 4 := by
        simp only [pySlice, List.length_take, List.length_drop]
        omega
      have hsb : ∀ b ∈ pySlice dataA a (a + 4), b < 256 := by
        intro b hbmem
        refine hAb b ?_
        have h1 : List.Sublist (pySlice dataA a (a + 4)) (dataA.drop a) :=
          List.take_sublist _ _
        have h2 : List.Sublist (dataA.drop a) dataA := List.drop_sublist _ _
        exact (h1.trans h2).mem hbmem
      have := iLE_bounds _ hsb
      rw [hsl] at this
      norm_num at this
      exact ⟨this.1, le_of_lt this.2⟩
    have h32 := hbnd 32 (by omega)
    have h36 := hbnd 36 (by omega)
    norm_num at h32 h36
    refine ⟨by positivity, ?_, ?_, ?_, ?_⟩
    · have h2 : -(2147483648 : ℚ) ≤ ((iLE (pySlice dataA 32 36) : Int) : ℚ) := by
        exact_mod_cast h32.1
      linarith
    · have h2 : ((iLE (pySlice dataA 32 36) : Int) : ℚ) ≤ 2147483648 := by
        exact_mod_cast h32.2
      linarith
    · have h2 : -(2147483648 : ℚ) ≤ ((iLE (pySlice dataA 36 40) : Int) : ℚ) := by
        exact_mod_cast h36.1
      linarith
    · have h2 : ((iLE (pySlice dataA 36 40) : Int) : ℚ) ≤ 2147483648 := by
        exact_mod_cast h36.2
      linarith
  · intro s hs
    by_cases hall : (pySlice dataB 4 20).all (· < 128) = true
    · rw [parse_unicore_fields dataB hB hall] at hs
      have hs' := Option.some.inj hs
      subst hs'
      have hnn : (0 : ℚ) ≤ (uLE (pySlice dataB 44 48) : ℚ) / 10 ^ 3 := by positivity
      exact le_trans hnn (le_max_left _ _)
    · have hnone : parse_unicore_bestpos dataB = none := by
        unfold parse_unicore_bestpos
        rw [if_neg (Nat.not_lt.mpr hB), if_neg hall]
      rw [hnone] at hs
      cases hs

/-- Witness for C3 (amended), at the all-zero messages. -/
theorem fix_record_bounds_witness :
    (∀ s, parse_ubx_nav_pvt (List.replicate 100 0) = some s →
        0 ≤ s.accuracy_m ∧
        -(2147483648 : ℚ) / 10 ^ 7 ≤ s.latitude ∧
        s.latitude ≤ (2147483648 : ℚ) / 10 ^ 7 ∧
        -(2147483648 : ℚ) / 10 ^ 7 ≤ s.longitude ∧
        s.longitude ≤ (2147483648 : ℚ) / 10 ^ 7)
    ∧ (∀ s, parse_unicore_bestpos (List.replicate 72 0) = some s → 0 ≤ s.accuracy_m) :=
  fix_record_bounds (List.replicate 100 0) (List.replicate 72 0)
    (by decide) (by decide) (by decide)
/-! ## Helper lemmas: the RTCM extraction loop -/

theorem processRtcmFuel_nil (fuel : Nat) : processRtcmFuel fuel [] = ([], []) := by
  cases fuel with
  | zero => rfl
  | succ g => rfl

/-- The fuel argument is irrelevant as soon as it bounds the buffer
length: the loop consumes at least one byte per iteration. -/
theorem processRtcmFuel_irrel : ∀ (n : Nat) (buf : List Nat) (f₁ f₂ : Nat),
    buf.length ≤ n → buf.length ≤ f₁ → buf.length ≤ f₂ →
    processRtcmFuel f₁ buf = processRtcmFuel f₂ buf := by
  intro n
  induction n with
  | zero =>
    intro buf f₁ f₂ hn _ _
    have hb : buf = [] := List.length_eq_zero.mp (Nat.le_zero.mp hn)
    subst hb
    rw [processRtcmFuel_nil, processRtcmFuel_nil]
  | succ n ih =>
    intro buf f₁ f₂ hn h₁ h₂
    cases buf with
    | nil => rw [processRtcmFuel_nil, processRtcmFuel_nil]
    | cons b rest =>
      simp only [List.length_cons] at hn h₁ h₂
      cases f₁ with
      | zero => omega
      | succ g₁ =>
        cases f₂ with
        | zero => omega
        | succ g₂ =>
          simp only [processRtcmFuel]
          by_cases h3 : rest.length + 1 < 3
          · simp [h3]
          · by_cases hb : b = 0xD3
            · subst hb
              by_cases hw : rest.length + 1 < rtcmTotal (0xD3 :: rest)
              · simp [h3, hw]
              · have h6 : 6 ≤ rtcmTotal (0xD3 :: rest) := Nat.le_add_left 6 _
                have hdl : ((0xD3 :: rest : List Nat).drop (rtcmTotal (0xD3 :: rest))).length ≤ n := by
                  simp only [List.length_drop, List.length_cons]
                  omega
                have hrec := ih _ g₁ g₂ hdl
                  (by simp only [List.length_drop, List.length_cons]; omega)
                  (by simp only [List.length_drop, List.length_cons]; omega)
                simp [h3, hw, hrec]
            · have hrec := ih rest g₁ g₂ (by omega) (by omega) (by omega)
              simp [h3, hb, hrec]

theorem processRtcm_nil : processRtcm [] = ([], []) := rfl

theorem processRtcm_eq_fuel (buf : List Nat) (f : Nat) (h : buf.length ≤ f) :
    processRtcm buf = processRtcmFuel f buf :=
  processRtcmFuel_irrel buf.length buf buf.length f le_rfl le_rfl h

/-- The loop waits (consumes nothing) when fewer than 3 bytes are buffered. -/
theorem processRtcm_short {buf : List Nat} (h : buf.length < 3) :
    processRtcm buf = ([], buf) := by
  cases buf with
  | nil => rfl
  | cons b rest =>
    show processRtcmFuel (rest.length + 1) (b :: rest) = ([], b :: rest)
    simp only [processRtcmFuel]
    rw [if_pos h]

/-- A leading non-preamble byte is popped. -/
theorem processRtcm_skip {b : Nat} {rest : List Nat} (h3 : 3 ≤ (b :: rest).length)
    (hb : b ≠ 0xD3) : processRtcm (b :: rest) = processRtcm rest := by
  show processRtcmFuel (rest.length + 1) (b :: rest) = processRtcm rest
  simp only [processRtcmFuel]
  rw [if_neg (Nat.not_lt.mpr h3), if_pos hb]
  rfl

/-- The loop waits on an incomplete candidate frame. -/
theorem processRtcm_wait {rest : List Nat} (h3 : 3 ≤ ((0xD3 : Nat) :: rest).length)
    (hw : ((0xD3 : Nat) :: rest).length < rtcmTotal (0xD3 :: rest)) :
    processRtcm (0xD3 :: rest) = ([], 0xD3 :: rest) := by
  show processRtcmFuel (rest.length + 1) (0xD3 :: rest) = ([], 0xD3 :: rest)
  simp only [processRtcmFuel]
  rw [if_neg (Nat.not_lt.mpr h3), if_neg (by simp), if_pos hw]

/-- One complete candidate frame is consumed; it is emitted exactly when
its CRC check passes. -/
theorem processRtcm_emit {rest : List Nat} (h3 : 3 ≤ ((0xD3 : Nat) :: rest).length)
    (hc : rtcmTotal (0xD3 :: rest) ≤ ((0xD3 : Nat) :: rest).length) :
    processRtcm (0xD3 :: rest) =
      (if validateRtcmCrc ((0xD3 :: rest).take (rtcmTotal (0xD3 :: rest))) then
        (((0xD3 :: rest).take (rtcmTotal (0xD3 :: rest))) ::
            (processRtcm ((0xD3 :: rest).drop (rtcmTotal (0xD3 :: rest)))).1,
          (processRtcm ((0xD3 :: rest).drop (rtcmTotal (0xD3 :: rest)))).2)
      else processRtcm ((0xD3 :: rest).drop (rtcmTotal (0xD3 :: rest)))) := by
  have h6 : 6 ≤ rtcmTotal (0xD3 :: rest) := Nat.le_add_left 6 _
  have hdrop : ((0xD3 :: rest : List Nat).drop (rtcmTotal (0xD3 :: rest))).length ≤ rest.length := by
    simp only [List.length_drop, List.length_cons]
    omega
  show processRtcmFuel (rest.length + 1) (0xD3 :: rest) = _
  simp only [processRtcmFuel]
  rw [if_neg (Nat.not_lt.mpr h3), if_neg (by simp), if_neg (Nat.not_lt.mpr hc),
    ← processRtcm_eq_fuel _ _ hdrop]

/-- The declared total length of a candidate only depends on the first
three buffered bytes. -/
theorem rtcmTotal_append (a b : List Nat) (h : 3 ≤ a.length) :
    rtcmTotal (a ++ b) = rtcmTotal a := by
  unfold rtcmTotal
  have h1 : (a ++ b).getD 1 0 = a.getD 1 0 := by
    simp [List.getD, List.getElem?_append, show 1 < a.length by omega]
  have h2 : (a ++ b).getD 2 0 = a.getD 2 0 := by
    simp [List.getD, List.getElem?_append, show 2 < a.length by omega]
  rw [h1, h2]

/-- Streaming decomposition: running the loop on `a ++ b` is running it on
`a`, then on the residue of `a` extended with `b`. -/
theorem processRtcm_append (a b : List Nat) :
    processRtcm (a ++ b) =
      ((processRtcm a).1 ++ (processRtcm ((processRtcm a).2 ++ b)).1,
       (processRtcm ((processRtcm a).2 ++ b)).2) := by
  suffices H : ∀ (n : Nat) (a : List Nat), a.length ≤ n → ∀ b : List Nat,
      processRtcm (a ++ b) =
        ((processRtcm a).1 ++ (processRtcm ((processRtcm a).2 ++ b)).1,
         (processRtcm ((processRtcm a).2 ++ b)).2) by
    exact H a.length a le_rfl b
  intro n
  induction n with
  | zero =>
    intro a ha b
    have hb : a = [] := List.length_eq_zero.mp (Nat.le_zero.mp ha)
    subst hb
    simp [processRtcm_nil]
  | succ n ih =>
    intro a ha b
    cases a with
    | nil => simp [processRtcm_nil]
    | cons x rest =>
      simp only [List.length_cons] at ha
      by_cases h3 : (x :: rest).length < 3
      · rw [processRtcm_short h3]
        simp
      · push_neg at h3
        simp only [List.length_cons] at h3
        by_cases hx : x = 0xD3
        · subst hx
          by_cases hcomp : rtcmTotal (0xD3 :: rest) ≤ (0xD3 :: rest : List Nat).length
          · have htot := rtcmTotal_append (0xD3 :: rest) b h3
            have h3' : 3 ≤ ((0xD3 :: rest : List Nat) ++ b).length := by
              simp only [List.length_append, List.length_cons]
              omega
            have hc' : rtcmTotal ((0xD3 :: rest : List Nat) ++ b) ≤
                ((0xD3 :: rest : List Nat) ++ b).length := by
              rw [htot]
              simp only [List.length_append]
              exact le_trans hcomp (Nat.le_add_right _ _)
            rw [show ((0xD3 :: rest : List Nat) ++ b) = 0xD3 :: (rest ++ b) from rfl] at htot h3' hc'
            rw [show ((0xD3 :: rest : List Nat) ++ b) = 0xD3 :: (rest ++ b) from rfl,
              processRtcm_emit h3' hc', processRtcm_emit h3 hcomp, htot]
            have htake : (0xD3 :: (rest ++ b) : List Nat).take (rtcmTotal (0xD3 :: rest)) =
                (0xD3 :: rest : List Nat).take (rtcmTotal (0xD3 :: rest)) := by
              rw [show (0xD3 :: (rest ++ b) : List Nat) = (0xD3 :: rest : List Nat) ++ b from rfl]
              exact List.take_append_of_le_length hcomp
            have hdropeq : (0xD3 :: (rest ++ b) : List Nat).drop (rtcmTotal (0xD3 :: rest)) =
                (0xD3 :: rest : List Nat).drop (rtcmTotal (0xD3 :: rest)) ++ b := by
              rw [show (0xD3 :: (rest ++ b) : List Nat) = (0xD3 :: rest : List Nat) ++ b from rfl]
              exact List.drop_append_of_le_length hcomp
            rw [htake, hdropeq]
            have h6 : 6 ≤ rtcmTotal (0xD3 :: rest) := Nat.le_add_left 6 _
            have hlen : ((0xD3 :: rest : List Nat).drop (rtcmTotal (0xD3 :: rest))).length ≤ n := by
              simp only [List.length_drop, List.length_cons]
              omega
            rw [ih _ hlen b]
            by_cases hv : validateRtcmCrc ((0xD3 :: rest : List Nat).take (rtcmTotal (0xD3 :: rest))) = true
            · simp [hv]
            · simp [hv]
          · push_neg at hcomp
            rw [processRtcm_wait h3 hcomp]
            simp
        · rw [show ((x :: rest) ++ b : List Nat) = x :: (rest ++ b) from rfl,
            processRtcm_skip (by simp only [List.length_cons, List.length_append]; omega) hx,
            processRtcm_skip h3 hx]
          exact ih rest (by omega) b

/-- The residue left by the loop is quiescent: running the loop on it
again consumes nothing. -/
theorem processRtcm_residue (a : List Nat) :
    processRtcm ((processRtcm a).2) = ([], (processRtcm a).2) := by
  have h := processRtcm_append a []
  simp only [List.append_nil] at h
  have h1 := congrArg Prod.fst h
  have h2 := congrArg Prod.snd h
  simp only [List.self_eq_append_right] at h1
  exact Prod.ext h1 h2.symm

/-- The frame accumulator of the chunk fold only grows by appending. -/
theorem feedRtcm_foldl_frames (cs : List (List Nat)) :
    ∀ (fr : List (List Nat)) (buf : List Nat),
      cs.foldl rtcmStep (fr, buf) =
        (fr ++ (cs.foldl rtcmStep ([], buf)).1, (cs.foldl rtcmStep ([], buf)).2) := by
  induction cs with
  | nil =>
    intro fr buf
    simp
  | cons c cs ih =>
    intro fr buf
    simp only [List.foldl_cons]
    rw [show rtcmStep (fr, buf) c =
        (fr ++ (processRtcm (buf ++ c)).1, (processRtcm (buf ++ c)).2) from rfl,
      show rtcmStep ([], buf) c = processRtcm (buf ++ c) from rfl]
    rw [ih (fr ++ (processRtcm (buf ++ c)).1) ((processRtcm (buf ++ c)).2),
      ih ((processRtcm (buf ++ c)).1) ((processRtcm (buf ++ c)).2)]
    simp [List.append_assoc]

/-- Folding chunks from a quiescent buffer equals one run on the
concatenation. -/
theorem feedRtcm_quiescent (cs : List (List Nat)) :
    ∀ (buf : List Nat), processRtcm buf = ([], buf) →
      cs.foldl rtcmStep ([], buf) = processRtcm (buf ++ cs.flatten) := by
  induction cs with
  | nil =>
    intro buf h
    simpa [List.append_nil] using h.symm
  | cons c cs ih =>
    intro buf _
    simp only [List.foldl_cons]
    rw [show rtcmStep ([], buf) c = processRtcm (buf ++ c) from rfl]
    rw [feedRtcm_foldl_frames cs ((processRtcm (buf ++ c)).1) ((processRtcm (buf ++ c)).2)]
    rw [ih ((processRtcm (buf ++ c)).2) (processRtcm_residue (buf ++ c))]
    rw [show (c :: cs).flatten = c ++ cs.flatten from rfl, ← List.append_assoc]
    exact (processRtcm_append (buf ++ c) cs.flatten).symm

/-! ## Claim theorems: frame extractors -/

/-- Counterexample to C2 as stated: the UBX extractor fed
`[ubxChunk1, ubxChunk2]` emits no frame (the no-sync path clears the
buffer, losing the trailing `0xB5`), while the concatenation fed as one
chunk emits the complete 8-byte frame. -/
theorem ubx_extractor_chunk_split_counterexample :
    (feedUbx [ubxChunk1, ubxChunk2]).1 ≠ (feedUbx [ubxChunk1 ++ ubxChunk2]).1 := by
  decide

/-- C2 (amended): chunking invariance holds for the RTCM extractor — for
every chunk decomposition, incremental feeding emits exactly the frames
(and leaves exactly the buffer) of feeding the concatenation at once.  It
fails for the variant-A UBX extractor (see the counterexample), whose
no-sync path clears the whole buffer instead of keeping the trailing
potential sync byte; the variant-B Unicore extractor shares that
buffer-clearing structure. -/
theorem rtcm_extractor_chunk_invariance (chunks : List (List Nat)) :
    feedRtcm chunks = feedRtcm [chunks.flatten] := by
  unfold feedRtcm
  rw [feedRtcm_quiescent chunks [] rfl]
  simp only [List.foldl_cons, List.foldl_nil]
  rw [show rtcmStep ([], []) chunks.flatten = processRtcm ([] ++ chunks.flatten) from rfl]

/-- C6: a complete candidate frame assembled from the stream is passed to
the correction callback iff its trailing three bytes, read big-endian,
equal the CRC-24Q (`crc24q`, polynomial 0x1864CFB, initial value 0,
MSB-first byte XOR into the top of a 24-bit accumulator, eight
shift-and-conditional-XOR rounds masked to 24 bits) of header plus
payload; a frame failing the check is never forwarded. -/
theorem rtcm_crc_gate (rest frame : List Nat)
    (h3 : 3 ≤ ((0xD3 : Nat) :: rest).length)
    (hc : rtcmTotal (0xD3 :: rest) ≤ ((0xD3 : Nat) :: rest).length)
    (hframe : frame = (0xD3 :: rest).take (rtcmTotal (0xD3 :: rest))) :
    (processRtcm (0xD3 :: rest)).1 =
      (if ((frame.getD (frame.length - 3) 0) <<< 16) |||
          ((frame.getD (frame.length - 2) 0) <<< 8) |||
          (frame.getD (frame.length - 1) 0) = crc24q (frame.take (frame.length - 3))
       then [frame] else []) ++
        (processRtcm ((0xD3 :: rest).drop (rtcmTotal (0xD3 :: rest)))).1 := by
  subst hframe
  have h6 : 6 ≤ rtcmTotal (0xD3 :: rest) := Nat.le_add_left 6 _
  have hlen : ((0xD3 :: rest : List Nat).take (rtcmTotal (0xD3 :: rest))).length =
      rtcmTotal (0xD3 :: rest) := by
    rw [List.length_take]
    exact min_eq_left hc
  have hval : validateRtcmCrc ((0xD3 :: rest : List Nat).take (rtcmTotal (0xD3 :: rest))) =
      ((((0xD3 :: rest : List Nat).take (rtcmTotal (0xD3 :: rest))).getD
          (rtcmTotal (0xD3 :: rest) - 3) 0) <<< 16 |||
        (((0xD3 :: rest : List Nat).take (rtcmTotal (0xD3 :: rest))).getD
          (rtcmTotal (0xD3 :: rest) - 2) 0) <<< 8 |||
        (((0xD3 :: rest : List Nat).take (rtcmTotal (0xD3 :: rest))).getD
          (rtcmTotal (0xD3 :: rest) - 1) 0)
        == crc24q (((0xD3 :: rest : List Nat).take (rtcmTotal (0xD3 :: rest))).take
          (rtcmTotal (0xD3 :: rest) - 3))) := by
    unfold validateRtcmCrc
    rw [hlen, if_neg (Nat.not_lt.mpr h6)]
  rw [processRtcm_emit h3 hc, hlen, hval]
  by_cases hv : ((((0xD3 :: rest : List Nat)).take (rtcmTotal (0xD3 :: rest))).getD
      (rtcmTotal (0xD3 :: rest) - 3) 0) <<< 16 |||
      ((((0xD3 :: rest : List Nat)).take (rtcmTotal (0xD3 :: rest))).getD
        (rtcmTotal (0xD3 :: rest) - 2) 0) <<< 8 |||
      ((((0xD3 :: rest : List Nat)).take (rtcmTotal (0xD3 :: rest))).getD
        (rtcmTotal (0xD3 :: rest) - 1) 0)
      = crc24q ((((0xD3 :: rest : List Nat)).take (rtcmTotal (0xD3 :: rest))).take
        (rtcmTotal (0xD3 :: rest) - 3))
  · rw [if_pos (by exact beq_iff_eq.mpr hv), if_pos hv]
    rfl
  · rw [if_neg (by simpa using hv), if_neg hv]
    rfl

/-- Witness for C6: the CRC-valid zero-payload frame `rtcmFrame6` is
emitted. -/
theorem rtcm_crc_gate_witness :
    (processRtcm (0xD3 :: [0x00, 0x00, 0x47, 0xEA, 0x4B])).1 =
      (if ((rtcmFrame6.getD (rtcmFrame6.length - 3) 0) <<< 16) |||
          ((rtcmFrame6.getD (rtcmFrame6.length - 2) 0) <<< 8) |||
          (rtcmFrame6.getD (rtcmFrame6.length - 1) 0)
          = crc24q (rtcmFrame6.take (rtcmFrame6.length - 3))
       then [rtcmFrame6] else []) ++
        (processRtcm ((0xD3 :: [0x00, 0x00, 0x47, 0xEA, 0x4B]).drop
          (rtcmTotal (0xD3 :: [0x00, 0x00, 0x47, 0xEA, 0x4B])))).1 :=
  rtcm_crc_gate [0x00, 0x00, 0x47, 0xEA, 0x4B] rtcmFrame6
    (by decide) (by decide) (by decide)

set_option maxRecDepth 8000 in
/-- Counterexample to C7 as stated: on the CRC-invalid candidate
`rtcmBadCandidate` the extractor emits nothing at all, although rescanning
from the byte after the preamble — the behaviour the claim describes —
would find and emit the valid embedded frame `rtcmFrame6`. -/
theorem rtcm_bad_crc_rescan_counterexample :
    (processRtcm rtcmBadCandidate).1 = [] ∧
      (processRtcm (rtcmBadCandidate.drop 1)).1 = [rtcmFrame6] := by
  decide

/-- C7 (amended): when a complete candidate fails the CRC check the
extractor emits nothing for it and drops the whole candidate
(`total_length` bytes), resuming the scan at the byte after the candidate;
the bytes inside the consumed candidate are not rescanned. -/
theorem rtcm_bad_crc_drops_whole_candidate (rest : List Nat)
    (h3 : 3 ≤ ((0xD3 : Nat) :: rest).length)
    (hc : rtcmTotal (0xD3 :: rest) ≤ ((0xD3 : Nat) :: rest).length)
    (hbad : validateRtcmCrc ((0xD3 :: rest).take (rtcmTotal (0xD3 :: rest))) = false) :
    processRtcm (0xD3 :: rest) =
      processRtcm ((0xD3 :: rest).drop (rtcmTotal (0xD3 :: rest))) := by
  rw [processRtcm_emit h3 hc, hbad]
  simp

set_option maxRecDepth 8000 in
/-- Witness for C7 (amended), at `rtcmBadCandidate`. -/
theorem rtcm_bad_crc_drops_whole_candidate_witness :
    processRtcm (0xD3 :: [0x00, 0x07, 0xD3, 0x00, 0x00, 0x47, 0xEA, 0x4B, 0x00, 0x00, 0x00, 0x00]) =
      processRtcm ((0xD3 :: [0x00, 0x07, 0xD3, 0x00, 0x00, 0x47, 0xEA, 0x4B, 0x00, 0x00, 0x00, 0x00]).drop
        (rtcmTotal (0xD3 :: [0x00, 0x07, 0xD3, 0x00, 0x00, 0x47, 0xEA, 0x4B, 0x00, 0x00, 0x00, 0x00]))) :=
  rtcm_bad_crc_drops_whole_candidate
    [0x00, 0x07, 0xD3, 0x00, 0x00, 0x47, 0xEA, 0x4B, 0x00, 0x00, 0x00, 0x00]
    (by decide) (by decide) (by decide)
/-! ## Helper lemmas: mount manager -/

theorem modifyIdx_length (f : MountStatus → MountStatus) :
    ∀ (i : Nat) (ms : List MountStatus), (modifyIdx f i ms).length = ms.length := by
  intro i ms
  induction ms generalizing i with
  | nil => cases i <;> rfl
  | cons m ms ih =>
    cases i with
    | zero => rfl
    | succ n => simpa [modifyIdx] using ih n

theorem mountAt_modifyIdx_self (f : MountStatus → MountStatus) :
    ∀ (i : Nat) (ms : List MountStatus), i < ms.length →
      mountAt (modifyIdx f i ms) i = f (mountAt ms i) := by
  intro i ms
  induction ms generalizing i with
  | nil => intro h; simp at h
  | cons m ms ih =>
    intro h
    cases i with
    | zero => rfl
    | succ n =>
      have := ih n (by simpa using h)
      simpa [modifyIdx, mountAt, List.getD_cons_succ] using this

theorem mountAt_modifyIdx_ne (f : MountStatus → MountStatus) :
    ∀ (i j : Nat) (ms : List MountStatus), j ≠ i →
      mountAt (modifyIdx f i ms) j = mountAt ms j := by
  intro i j ms
  induction ms generalizing i j with
  | nil => intro _; cases i <;> rfl
  | cons m ms ih =>
    intro hne
    cases i with
    | zero =>
      cases j with
      | zero => exact absurd rfl hne
      | succ k => rfl
    | succ n =>
      cases j with
      | zero => rfl
      | succ k =>
        have := ih n k (fun h => hne (by rw [h]))
        simpa [modifyIdx, mountAt, List.getD_cons_succ] using this

theorem mem_insertMount (p q : Nat × MountStatus) :
    ∀ (L : List (Nat × MountStatus)), q ∈ insertMount p L ↔ q = p ∨ q ∈ L := by
  intro L
  induction L with
  | nil => simp [insertMount]
  | cons r L ih =>
    by_cases h : keyLe p.2 r.2
    · simp [insertMount, h]
    · simp [insertMount, h, ih]
      tauto

theorem perm_insertMount (p : Nat × MountStatus) :
    ∀ (L : List (Nat × MountStatus)), (insertMount p L).Perm (p :: L) := by
  intro L
  induction L with
  | nil => simp [insertMount]
  | cons r L ih =>
    by_cases h : keyLe p.2 r.2
    · simp [insertMount, h]
    · simp only [insertMount, if_neg h]
      exact (ih.cons r).trans (List.Perm.swap p r L)

theorem perm_sortMounts :
    ∀ (L : List (Nat × MountStatus)), (sortMounts L).Perm L := by
  intro L
  induction L with
  | nil => rfl
  | cons p L ih => exact (perm_insertMount p (sortMounts L)).trans (ih.cons p)

theorem mem_sortMounts (q : Nat × MountStatus) (L : List (Nat × MountStatus)) :
    q ∈ sortMounts L ↔ q ∈ L :=
  (perm_sortMounts L).mem_iff

theorem keyLe_true_key (a b : MountStatus) (h : keyLe a b = true) :
    keyLtP a b ∨ failKey a = failKey b := by
  unfold keyLe at h
  simp only [Bool.or_eq_true, Bool.and_eq_true, decide_eq_true_eq] at h
  unfold keyLtP failKey
  simp only [Prod.mk.injEq]
  rcases h with h | ⟨h1, h2⟩
  · exact Or.inl (Or.inl h)
  · rcases lt_or_eq_of_le h2 with h3 | h3
    · exact Or.inl (Or.inr ⟨h1, h3⟩)
    · exact Or.inr ⟨h1, h3⟩

theorem keyLe_false_key (a b : MountStatus) (h : keyLe a b = false) :
    keyLtP b a := by
  have hn : ¬ (a.consecutive_failures < b.consecutive_failures ∨
      (a.consecutive_failures = b.consecutive_failures ∧ a.priority ≤ b.priority)) := by
    intro hcon
    have ht : keyLe a b = true := by
      unfold keyLe
      rcases hcon with h1 | ⟨h1, h2⟩
      · simp [h1]
      · simp [h1, h2]
    rw [ht] at h
    cases h
  push_neg at hn
  unfold keyLtP
  omega

theorem key_compose (a b c : MountStatus)
    (hab : keyLtP a b ∨ failKey a = failKey b)
    (hbc : keyLtP b c ∨ failKey b = failKey c) :
    keyLtP a c ∨ failKey a = failKey c := by
  unfold keyLtP failKey at *
  simp only [Prod.mk.injEq] at *
  rcases hab with (h | ⟨h1, h2⟩) | ⟨h1, h2⟩ <;>
    rcases hbc with (h' | ⟨h1', h2'⟩) | ⟨h1', h2'⟩ <;>
    first
      | (left; left; omega)
      | (left; right; constructor <;> omega)
      | (right; constructor <;> omega)

theorem pairwise_insertMount (p : Nat × MountStatus) :
    ∀ (L : List (Nat × MountStatus)),
      L.Pairwise (fun x y => keyLtP x.2 y.2 ∨ (failKey x.2 = failKey y.2 ∧ x.1 < y.1)) →
      (∀ q ∈ L, p.1 < q.1) →
      (insertMount p L).Pairwise
        (fun x y => keyLtP x.2 y.2 ∨ (failKey x.2 = failKey y.2 ∧ x.1 < y.1)) := by
  intro L
  induction L with
  | nil => intro _ _; simp [insertMount]
  | cons r L ih =>
    intro hL hp
    obtain ⟨hr, hL'⟩ := List.pairwise_cons.mp hL
    by_cases h : keyLe p.2 r.2
    · rw [insertMount, if_pos h]
      refine List.pairwise_cons.mpr ⟨?_, hL⟩
      intro x hx
      rcases List.mem_cons.mp hx with rfl | hx'
      · rcases keyLe_true_key _ _ h with hk | hk
        · exact Or.inl hk
        · exact Or.inr ⟨hk, hp x (List.mem_cons_self _ _)⟩
      · have hrx : keyLtP r.2 x.2 ∨ failKey r.2 = failKey x.2 := by
          rcases hr x hx' with hk | ⟨hk, -⟩
          · exact Or.inl hk
          · exact Or.inr hk
        rcases key_compose p.2 r.2 x.2 (keyLe_true_key _ _ h) hrx with hk | hk
        · exact Or.inl hk
        · exact Or.inr ⟨hk, hp x (List.mem_cons_of_mem _ hx')⟩
    · rw [insertMount, if_neg h]
      refine List.pairwise_cons.mpr ⟨?_, ih hL' (fun q hq => hp q (List.mem_cons_of_mem _ hq))⟩
      intro x hx
      rcases (mem_insertMount p x L).mp hx with rfl | hx'
      · exact Or.inl (keyLe_false_key _ _ (Bool.not_eq_true _ ▸ h))
      · exact hr x hx'

theorem pairwise_sortMounts :
    ∀ (L : List (Nat × MountStatus)),
      L.Pairwise (fun x y => x.1 < y.1) →
      (sortMounts L).Pairwise
        (fun x y => keyLtP x.2 y.2 ∨ (failKey x.2 = failKey y.2 ∧ x.1 < y.1)) := by
  intro L
  induction L with
  | nil => intro _; simp [sortMounts]
  | cons p L ih =>
    intro h
    obtain ⟨hp, hL⟩ := List.pairwise_cons.mp h
    exact pairwise_insertMount p (sortMounts L) (ih hL)
      (fun q hq => hp q ((mem_sortMounts q L).mp hq))

theorem mem_enumFrom_facts :
    ∀ (l : List MountStatus) (k : Nat) (p : Nat × MountStatus),
      p ∈ l.enumFrom k →
        k ≤ p.1 ∧ p.1 - k < l.length ∧ l.getD (p.1 - k) mdefault = p.2 := by
  intro l
  induction l with
  | nil => intro k p h; simp [List.enumFrom] at h
  | cons m l ih =>
    intro k p h
    simp only [List.enumFrom, List.mem_cons] at h
    rcases h with rfl | h
    · simp
    · obtain ⟨h1, h2, h3⟩ := ih (k + 1) p h
      refine ⟨by omega, by simp only [List.length_cons]; omega, ?_⟩
      have hs : p.1 - k = (p.1 - (k + 1)) + 1 := by omega
      rw [hs, List.getD_cons_succ]
      exact h3

theorem mem_enum_facts (ms : List MountStatus) (p : Nat × MountStatus)
    (h : p ∈ ms.enum) : p.1 < ms.length ∧ mountAt ms p.1 = p.2 := by
  have h' := mem_enumFrom_facts ms 0 p h
  refine ⟨by omega, ?_⟩
  have := h'.2.2
  simpa [mountAt] using this

theorem pairwise_enumFrom_lt :
    ∀ (l : List MountStatus) (k : Nat),
      (l.enumFrom k).Pairwise (fun x y => x.1 < y.1) := by
  intro l
  induction l with
  | nil => intro k; simp [List.enumFrom]
  | cons m l ih =>
    intro k
    simp only [List.enumFrom]
    refine List.pairwise_cons.mpr ⟨?_, ih (k + 1)⟩
    intro q hq
    have := (mem_enumFrom_facts l (k + 1) q hq).1
    omega

theorem mem_availableMounts (maxFail : Nat) (ms : List MountStatus)
    (p : Nat × MountStatus) (h : p ∈ availableMounts maxFail ms) :
    p.1 < ms.length ∧ mountAt ms p.1 = p.2 ∧ isAvailable maxFail p.2 = true := by
  unfold availableMounts at h
  have h1 := List.mem_of_mem_filter h
  have h2 := List.of_mem_filter h
  obtain ⟨hb, hm⟩ := mem_enum_facts ms p h1
  exact ⟨hb, hm, h2⟩

theorem pairwise_availableMounts (maxFail : Nat) (ms : List MountStatus) :
    (availableMounts maxFail ms).Pairwise (fun x y => x.1 < y.1) := by
  unfold availableMounts
  exact (pairwise_enumFrom_lt ms 0).sublist (List.filter_sublist _)

theorem sorted_available_facts (maxFail : Nat) (ms : List MountStatus) :
    ∀ p ∈ sortMounts (availableMounts maxFail ms),
      p.1 < ms.length ∧ mountAt ms p.1 = p.2 ∧ isAvailable maxFail p.2 = true :=
  fun p hp =>
    mem_availableMounts maxFail ms p ((mem_sortMounts p (availableMounts maxFail ms)).mp hp)

theorem nodup_sorted_fst (maxFail : Nat) (ms : List MountStatus) :
    ((sortMounts (availableMounts maxFail ms)).map Prod.fst).Nodup := by
  have hperm := perm_sortMounts (availableMounts maxFail ms)
  have h1 : (availableMounts maxFail ms).Pairwise (fun x y => x.1 ≠ y.1) :=
    (pairwise_availableMounts maxFail ms).imp (fun h => Nat.ne_of_lt h)
  have h2 : (sortMounts (availableMounts maxFail ms)).Pairwise (fun x y => x.1 ≠ y.1) :=
    (hperm.pairwise_iff (fun hab => Ne.symm hab)).mpr h1
  simpa [List.Nodup, List.pairwise_map] using h2
theorem untilSuccessIdx_sublist (ok : Nat → Bool) :
    ∀ (l : List Nat), List.Sublist (untilSuccessIdx ok l) l := by
  intro l
  induction l with
  | nil => simp [untilSuccessIdx]
  | cons i rest ih =>
    by_cases h : ok i
    · simp [untilSuccessIdx, h]
    · simp only [untilSuccessIdx, if_neg h]
      exact ih.cons₂ i

theorem any_untilSuccessIdx (ok : Nat → Bool) :
    ∀ (l : List Nat), (untilSuccessIdx ok l).any ok = l.any ok := by
  intro l
  induction l with
  | nil => rfl
  | cons i rest ih =>
    by_cases h : ok i = true
    · simp [untilSuccessIdx, h]
    · simp [untilSuccessIdx, h, ih]

theorem find?_mem_untilSuccessIdx (ok : Nat → Bool) :
    ∀ (L : List (Nat × MountStatus)) (p : Nat × MountStatus),
      L.find? (fun q => ok q.1) = some p →
      p.1 ∈ untilSuccessIdx ok (L.map Prod.fst) := by
  intro L
  induction L with
  | nil => intro p h; simp [List.find?] at h
  | cons q L ih =>
    intro p h
    by_cases hq : ok q.1 = true
    · have hq' : (fun r : Nat × MountStatus => ok r.1) q = true := hq
      rw [List.find?_cons_of_pos L hq'] at h
      have := Option.some.inj h
      subst this
      simp [untilSuccessIdx, hq]
    · have hq' : ¬ (fun r : Nat × MountStatus => ok r.1) q = true := by simpa using hq
      rw [List.find?_cons_of_neg L hq'] at h
      have := ih p h
      simp only [List.map_cons, untilSuccessIdx, hq, if_false]
      exact List.mem_cons_of_mem _ this

theorem connectRound_attempted (now : ℚ) (ok : Nat → Bool) :
    ∀ (L : List (Nat × MountStatus)) (ms : List MountStatus),
      (connectRound now ok L ms).attempted = untilSuccessIdx ok (L.map Prod.fst) := by
  intro L
  induction L with
  | nil => intro ms; rfl
  | cons p L ih =>
    intro ms
    obtain ⟨i, m⟩ := p
    by_cases h : ok i = true
    · simp [connectRound, h, untilSuccessIdx]
    · simp [connectRound, h, untilSuccessIdx, ih]

theorem connectRound_success (now : ℚ) (ok : Nat → Bool) :
    ∀ (L : List (Nat × MountStatus)) (ms : List MountStatus),
      (connectRound now ok L ms).success = (L.map Prod.fst).any ok := by
  intro L
  induction L with
  | nil => intro ms; rfl
  | cons p L ih =>
    intro ms
    obtain ⟨i, m⟩ := p
    by_cases h : ok i = true
    · simp [connectRound, h]
    · simp [connectRound, h, ih]

theorem connectRound_active (now : ℚ) (ok : Nat → Bool) :
    ∀ (L : List (Nat × MountStatus)) (ms : List MountStatus),
      (connectRound now ok L ms).active =
        (L.find? (fun p => ok p.1)).map Prod.fst := by
  intro L
  induction L with
  | nil => intro ms; rfl
  | cons p L ih =>
    intro ms
    obtain ⟨i, m⟩ := p
    by_cases h : ok i = true
    · have h' : (fun r : Nat × MountStatus => ok r.1) (i, m) = true := by simpa using h
      rw [List.find?_cons_of_pos L h']
      simp [connectRound, h]
    · have h' : ¬ (fun r : Nat × MountStatus => ok r.1) (i, m) = true := by simpa using h
      rw [List.find?_cons_of_neg L h']
      simp [connectRound, h, ih]

theorem connectRound_mounts_untouched (now : ℚ) (ok : Nat → Bool) :
    ∀ (L : List (Nat × MountStatus)) (ms : List MountStatus) (j : Nat),
      (∀ p ∈ L, p.1 ≠ j) →
      mountAt (connectRound now ok L ms).mounts j = mountAt ms j := by
  intro L
  induction L with
  | nil => intro ms j _; rfl
  | cons p L ih =>
    intro ms j hne
    obtain ⟨i, m⟩ := p
    have hij : i ≠ j := hne (i, m) (List.mem_cons_self _ _)
    by_cases h : ok i = true
    · have hstep : connectRound now ok ((i, m) :: L) ms =
          ⟨true, [i], modifyIdx (attemptSuccess now) i ms, some i⟩ := by
        simp only [connectRound]
        rw [if_pos h]
      rw [hstep]
      exact mountAt_modifyIdx_ne _ i j ms (Ne.symm hij)
    · have hstep : connectRound now ok ((i, m) :: L) ms =
          ⟨(connectRound now ok L (modifyIdx (attemptFailure now) i ms)).success,
           i :: (connectRound now ok L (modifyIdx (attemptFailure now) i ms)).attempted,
           (connectRound now ok L (modifyIdx (attemptFailure now) i ms)).mounts,
           (connectRound now ok L (modifyIdx (attemptFailure now) i ms)).active⟩ := by
        simp only [connectRound]
        rw [if_neg h]
      rw [hstep]
      rw [ih (modifyIdx (attemptFailure now) i ms) j
        (fun q hq => hne q (List.mem_cons_of_mem _ hq))]
      exact mountAt_modifyIdx_ne _ i j ms (Ne.symm hij)

theorem connectRound_mounts_at (now : ℚ) (ok : Nat → Bool) :
    ∀ (L : List (Nat × MountStatus)) (ms : List MountStatus),
      (L.map Prod.fst).Nodup → (∀ p ∈ L, p.1 < ms.length) →
      ∀ i ∈ (connectRound now ok L ms).attempted,
        mountAt (connectRound now ok L ms).mounts i =
          (if ok i then attemptSuccess now (mountAt ms i)
           else attemptFailure now (mountAt ms i)) := by
  intro L
  induction L with
  | nil => intro ms _ _ i hi; simp [connectRound] at hi
  | cons p L ih =>
    intro ms hnd hbound i hi
    obtain ⟨j, m⟩ := p
    have hnd' := hnd
    simp only [List.map_cons] at hnd'
    obtain ⟨hj_notin, hndL⟩ := List.nodup_cons.mp hnd'
    by_cases hok : ok j = true
    · have hstep : connectRound now ok ((j, m) :: L) ms =
          ⟨true, [j], modifyIdx (attemptSuccess now) j ms, some j⟩ := by
        simp only [connectRound]
        rw [if_pos hok]
      rw [hstep] at hi ⊢
      have hij : i = j := by simpa using hi
      subst hij
      show mountAt (modifyIdx (attemptSuccess now) i ms) i = _
      rw [mountAt_modifyIdx_self _ i ms (hbound (i, m) (List.mem_cons_self _ _)),
        if_pos hok]
    · have hstep : connectRound now ok ((j, m) :: L) ms =
          ⟨(connectRound now ok L (modifyIdx (attemptFailure now) j ms)).success,
           j :: (connectRound now ok L (modifyIdx (attemptFailure now) j ms)).attempted,
           (connectRound now ok L (modifyIdx (attemptFailure now) j ms)).mounts,
           (connectRound now ok L (modifyIdx (attemptFailure now) j ms)).active⟩ := by
        simp only [connectRound]
        rw [if_neg hok]
      rw [hstep] at hi ⊢
      rcases List.mem_cons.mp (by simpa using hi) with rfl | hi'
      · show mountAt (connectRound now ok L (modifyIdx (attemptFailure now) i ms)).mounts i = _
        have huntouched := connectRound_mounts_untouched now ok L
          (modifyIdx (attemptFailure now) i ms) i
          (fun q hq => by
            intro hqi
            exact hj_notin (hqi ▸ List.mem_map_of_mem Prod.fst hq))
        rw [huntouched,
          mountAt_modifyIdx_self _ i ms (hbound (i, m) (List.mem_cons_self _ _)),
          if_neg (by simp [hok])]
      · have hbound' : ∀ q ∈ L, q.1 < (modifyIdx (attemptFailure now) j ms).length := by
          intro q hq
          rw [modifyIdx_length]
          exact hbound q (List.mem_cons_of_mem _ hq)
        have hres := ih (modifyIdx (attemptFailure now) j ms) hndL hbound' i hi'
        have hij : i ≠ j := by
          intro hij
          apply hj_notin
          rw [← hij]
          rw [connectRound_attempted] at hi'
          exact (untilSuccessIdx_sublist ok _).mem hi'
        show mountAt (connectRound now ok L (modifyIdx (attemptFailure now) j ms)).mounts i = _
        rw [hres, mountAt_modifyIdx_ne _ j i ms hij]

theorem attempted_available (maxFail : Nat) (now : ℚ) (ok : Nat → Bool)
    (ms : List MountStatus) :
    ∀ i ∈ (connectBestMount maxFail now ok ms).attempted,
      i < ms.length ∧ (mountAt ms i).enabled = true ∧
        (mountAt ms i).consecutive_failures < maxFail := by
  intro i hi
  rw [connectBestMount, connectRound_attempted] at hi
  have hmem := (untilSuccessIdx_sublist ok _).mem hi
  obtain ⟨p, hp, hpi⟩ := List.mem_map.mp hmem
  obtain ⟨hb, hm, ha⟩ := sorted_available_facts maxFail ms p hp
  unfold isAvailable at ha
  simp only [Bool.and_eq_true, decide_eq_true_eq] at ha
  subst hpi
  rw [hm]
  exact ⟨hb, ha.1, ha.2⟩

/-! ## Claim theorems: mount manager -/

/-- C4: a connection round attempts only enabled descriptors whose
consecutive-failure count (at round start) is below
`max_consecutive_failures`, in ascending lexicographic
`(consecutive-failures, priority)` order with remaining ties broken by
list order; the first success becomes active with its failure count reset
to 0, each failed attempt increments that descriptor's failure count, and
the round returns false iff no attempted descriptor connects. -/
theorem connect_round_characterization (maxFail : Nat) (now : ℚ) (ok : Nat → Bool)
    (ms : List MountStatus) :
    (connectBestMount maxFail now ok ms).attempted =
      untilSuccessIdx ok ((sortMounts (availableMounts maxFail ms)).map Prod.fst)
    ∧ (∀ i ∈ (connectBestMount maxFail now ok ms).attempted,
        i < ms.length ∧ (mountAt ms i).enabled = true ∧
          (mountAt ms i).consecutive_failures < maxFail)
    ∧ (connectBestMount maxFail now ok ms).attempted.Pairwise (attemptOrder ms)
    ∧ (connectBestMount maxFail now ok ms).active =
        ((sortMounts (availableMounts maxFail ms)).find? (fun p => ok p.1)).map Prod.fst
    ∧ (∀ i, (connectBestMount maxFail now ok ms).active = some i →
        ok i = true ∧
          (mountAt (connectBestMount maxFail now ok ms).mounts i).consecutive_failures = 0)
    ∧ (∀ i ∈ (connectBestMount maxFail now ok ms).attempted, ok i = false →
        (mountAt (connectBestMount maxFail now ok ms).mounts i).consecutive_failures =
          (mountAt ms i).consecutive_failures + 1)
    ∧ (connectBestMount maxFail now ok ms).success =
        (connectBestMount maxFail now ok ms).attempted.any ok := by
  have hchar : (connectBestMount maxFail now ok ms).attempted =
      untilSuccessIdx ok ((sortMounts (availableMounts maxFail ms)).map Prod.fst) :=
    connectRound_attempted now ok _ ms
  have hnd := nodup_sorted_fst maxFail ms
  have hbound : ∀ p ∈ sortMounts (availableMounts maxFail ms), p.1 < ms.length :=
    fun p hp => (sorted_available_facts maxFail ms p hp).1
  have hat := connectRound_mounts_at now ok (sortMounts (availableMounts maxFail ms))
    ms hnd hbound
  refine ⟨hchar, attempted_available maxFail now ok ms, ?_, ?_, ?_, ?_, ?_⟩
  · -- ordering
    rw [hchar]
    have hpair := pairwise_sortMounts _ (pairwise_availableMounts maxFail ms)
    have hpair2 : (sortMounts (availableMounts maxFail ms)).Pairwise
        (fun x y => attemptOrder ms x.1 y.1) := by
      refine hpair.imp_of_mem ?_
      intro a b ha hb hrel
      have hma := (sorted_available_facts maxFail ms a ha).2.1
      have hmb := (sorted_available_facts maxFail ms b hb).2.1
      unfold attemptOrder
      rw [hma, hmb]
      exact hrel
    have hpair3 : ((sortMounts (availableMounts maxFail ms)).map Prod.fst).Pairwise
        (attemptOrder ms) := List.pairwise_map.mpr hpair2
    exact hpair3.sublist (untilSuccessIdx_sublist ok _)
  · exact connectRound_active now ok _ ms
  · intro i hact
    rw [connectBestMount, connectRound_active] at hact
    obtain ⟨p, hfind, hpi⟩ := Option.map_eq_some'.mp hact
    have hok : ok p.1 = true := by simpa using List.find?_some hfind
    subst hpi
    refine ⟨hok, ?_⟩
    have hiatt : p.1 ∈ (connectBestMount maxFail now ok ms).attempted := by
      rw [hchar]
      exact find?_mem_untilSuccessIdx ok _ p hfind
    have := hat p.1 (by rwa [connectBestMount] at hiatt)
    rw [connectBestMount, this, if_pos hok]
    rfl
  · intro i hi hok
    have := hat i (by rwa [connectBestMount] at hi)
    rw [connectBestMount, this, if_neg (by simp [hok])]
    rfl
  · rw [hchar, connectBestMount, connectRound_success, any_untilSuccessIdx]

/-- Witness instantiation for C4: three mounts (one disabled), the
second-listed mount connects. -/
theorem connect_round_characterization_witness :
    (connectBestMount 3 0 (fun i => decide (i = 1))
        [⟨true, 0, 5, none⟩, ⟨true, 1, 0, some 0⟩, ⟨false, 0, 0, none⟩]).attempted =
      untilSuccessIdx (fun i => decide (i = 1))
        ((sortMounts (availableMounts 3
          [⟨true, 0, 5, none⟩, ⟨true, 1, 0, some 0⟩, ⟨false, 0, 0, none⟩])).map Prod.fst)
    ∧ (∀ i ∈ (connectBestMount 3 0 (fun i => decide (i = 1))
        [⟨true, 0, 5, none⟩, ⟨true, 1, 0, some 0⟩, ⟨false, 0, 0, none⟩]).attempted,
        i < ([⟨true, 0, 5, none⟩, ⟨true, 1, 0, some 0⟩,
            ⟨false, 0, 0, none⟩] : List MountStatus).length ∧
          (mountAt [⟨true, 0, 5, none⟩, ⟨true, 1, 0, some 0⟩,
            ⟨false, 0, 0, none⟩] i).enabled = true ∧
          (mountAt [⟨true, 0, 5, none⟩, ⟨true, 1, 0, some 0⟩,
            ⟨false, 0, 0, none⟩] i).consecutive_failures < 3)
    ∧ (connectBestMount 3 0 (fun i => decide (i = 1))
        [⟨true, 0, 5, none⟩, ⟨true, 1, 0, some 0⟩,
          ⟨false, 0, 0, none⟩]).attempted.Pairwise
        (attemptOrder [⟨true, 0, 5, none⟩, ⟨true, 1, 0, some 0⟩, ⟨false, 0, 0, none⟩])
    ∧ (connectBestMount 3 0 (fun i => decide (i = 1))
        [⟨true, 0, 5, none⟩, ⟨true, 1, 0, some 0⟩, ⟨false, 0, 0, none⟩]).active =
        ((sortMounts (availableMounts 3
          [⟨true, 0, 5, none⟩, ⟨true, 1, 0, some 0⟩,
            ⟨false, 0, 0, none⟩])).find? (fun p => decide (p.1 = 1))).map Prod.fst
    ∧ (∀ i, (connectBestMount 3 0 (fun i => decide (i = 1))
        [⟨true, 0, 5, none⟩, ⟨true, 1, 0, some 0⟩, ⟨false, 0, 0, none⟩]).active = some i →
        decide (i = 1) = true ∧
          (mountAt (connectBestMount 3 0 (fun i => decide (i = 1))
            [⟨true, 0, 5, none⟩, ⟨true, 1, 0, some 0⟩,
              ⟨false, 0, 0, none⟩]).mounts i).consecutive_failures = 0)
    ∧ (∀ i ∈ (connectBestMount 3 0 (fun i => decide (i = 1))
        [⟨true, 0, 5, none⟩, ⟨true, 1, 0, some 0⟩, ⟨false, 0, 0, none⟩]).attempted,
        decide (i = 1) = false →
        (mountAt (connectBestMount 3 0 (fun i => decide (i = 1))
          [⟨true, 0, 5, none⟩, ⟨true, 1, 0, some 0⟩,
            ⟨false, 0, 0, none⟩]).mounts i).consecutive_failures =
          (mountAt [⟨true, 0, 5, none⟩, ⟨true, 1, 0, some 0⟩,
            ⟨false, 0, 0, none⟩] i).consecutive_failures + 1)
    ∧ (connectBestMount 3 0 (fun i => decide (i = 1))
        [⟨true, 0, 5, none⟩, ⟨true, 1, 0, some 0⟩, ⟨false, 0, 0, none⟩]).success =
        (connectBestMount 3 0 (fun i => decide (i = 1))
          [⟨true, 0, 5, none⟩, ⟨true, 1, 0, some 0⟩,
            ⟨false, 0, 0, none⟩]).attempted.any (fun i => decide (i = 1)) :=
  connect_round_characterization 3 0 (fun i => decide (i = 1))
    [⟨true, 0, 5, none⟩, ⟨true, 1, 0, some 0⟩, ⟨false, 0, 0, none⟩]

theorem getD_map_mount (f : MountStatus → MountStatus) :
    ∀ (ms : List MountStatus) (i : Nat), i < ms.length →
      (ms.map f).getD i mdefault = f (ms.getD i mdefault) := by
  intro ms
  induction ms with
  | nil => intro i h; simp at h
  | cons m ms ih =>
    intro i h
    cases i with
    | zero => rfl
    | succ n =>
      simp only [List.map_cons, List.getD_cons_succ]
      exact ih n (by simpa using h)

/-- C5: a descriptor whose consecutive-failure count has reached
`max_consecutive_failures` is never attempted by the selection rule (in
particular while its cooldown has not elapsed); once a health-check pass
runs with `now − last_attempt > retry_delay`, its failure count is reset
to 0 and (still being enabled, with a positive failure cap) it passes the
selection filter again. -/
theorem mount_cooldown (maxFail : Nat) (retryDelay now nowHC : ℚ) (ok : Nat → Bool)
    (ms : List MountStatus) (i : Nat)
    (hfail : maxFail ≤ (mountAt ms i).consecutive_failures) :
    (i ∉ (connectBestMount maxFail now ok ms).attempted)
    ∧ (∀ t, (mountAt ms i).last_attempt = some t → retryDelay < nowHC - t →
        i < ms.length →
        (mountAt (retryFailedMounts maxFail retryDelay nowHC ms) i).consecutive_failures = 0
        ∧ ((mountAt ms i).enabled = true → 0 < maxFail →
            isAvailable maxFail (mountAt (retryFailedMounts maxFail retryDelay nowHC ms) i)
              = true)) := by
  constructor
  · intro hi
    have := (attempted_available maxFail now ok ms i hi).2.2
    omega
  · intro t hlast hcool hilen
    have hmap : mountAt (retryFailedMounts maxFail retryDelay nowHC ms) i =
        (if maxFail ≤ (mountAt ms i).consecutive_failures then
          match (mountAt ms i).last_attempt with
          | some t' =>
            if retryDelay < nowHC - t' then
              { mountAt ms i with consecutive_failures := 0 }
            else mountAt ms i
          | none => mountAt ms i
        else mountAt ms i) := by
      unfold retryFailedMounts mountAt
      exact getD_map_mount _ ms i hilen
    rw [hmap, if_pos hfail, hlast]
    simp only [hcool, if_true]
    constructor
    · trivial
    · intro hen hpos
      unfold isAvailable
      simp [hen, hpos]

/-- Witness for C5: one enabled mount with 3 failures, `retry_delay`
30 s, last attempt at t = 10, health check at t = 50. -/
theorem mount_cooldown_witness :
    (0 ∉ (connectBestMount 3 0 (fun _ => true)
        [⟨true, 3, 0, some 10⟩]).attempted)
    ∧ ((mountAt (retryFailedMounts 3 30 50 [⟨true, 3, 0, some 10⟩]) 0).consecutive_failures = 0
        ∧ isAvailable 3 (mountAt (retryFailedMounts 3 30 50 [⟨true, 3, 0, some 10⟩]) 0) = true) :=
  ⟨(mount_cooldown 3 30 0 50 (fun _ => true) [⟨true, 3, 0, some 10⟩] 0 (by decide)).1,
   ((mount_cooldown 3 30 0 50 (fun _ => true) [⟨true, 3, 0, some 10⟩] 0 (by decide)).2
      10 rfl (by norm_num) (by decide)).1,
   (((mount_cooldown 3 30 0 50 (fun _ => true) [⟨true, 3, 0, some 10⟩] 0 (by decide)).2
      10 rfl (by norm_num) (by decide)).2 (by decide) (by decide))⟩

end RTKHub
